import Mathlib

/-!
# pkg/runtime/embedded.go

A shallow embedding of the lazy encoding wrapper (`encodable`), of the JSON
methods of `Unknown`, and of the two conversion functions returned by
`DefaultEmbeddedConversions`, followed by the properties proved about them.

Conventions of the embedding

* A Go `[]byte` is an `Option (List Byte)`: `none` is the nil slice and
  `some bs` a non-nil slice whose visible elements are `bs`.  Capacity and the
  backing array are not observed by any operation of the file.
* A Go `error` result is an `Option GoError`, `none` being the nil error.
* A pointer is an `Option`: `none` is the nil pointer.  A function that can
  dereference a nil pointer returns an `Option` whose `none` is the run-time
  panic.
* A method with a pointer receiver returns the receiver's new contents next to
  its Go result.
-/

namespace Runtime

/-! ## Go values -/

/-- One element of a Go `[]byte`. -/
abbrev Byte := Fin 256

/-- A Go `[]byte`: `none` is nil, `some bs` is non-nil with elements `bs`. -/
abbrev ByteSlice := Option (List Byte)

/-- The elements of a slice; a nil slice has none. -/
def elems : ByteSlice → List Byte
  | none => []
  | some bs => bs

/-- Go `len(s)`. -/
def len (s : ByteSlice) : Nat := (elems s).length

/-- Go `s[0:0]`: nil stays nil, a non-nil slice becomes a non-nil empty one. -/
def resliceEmpty : ByteSlice → ByteSlice
  | none => none
  | some _ => some []

/-- Go `append(s, xs...)`: appending nothing to a nil slice leaves it nil, every
other case yields a non-nil slice holding the old elements followed by the
new ones. -/
def goAppend (s xs : ByteSlice) : ByteSlice :=
  match s with
  | none => if elems xs = [] then none else some (elems xs)
  | some bs => some (bs ++ elems xs)

/-- The four bytes of `[]byte("null")`. -/
def nullLiteral : List Byte := [110, 117, 108, 108]

/-- A Go error value, identified by its message. -/
structure GoError where
  msg : String
  deriving DecidableEq, Repr

/-- Go `errors.New(text)`. -/
def errorsNew (text : String) : GoError := ⟨text⟩

/-! ## Types declared elsewhere in the package -/

/-- Modelled from the spec: the kind/version descriptor `TypeMeta` embedded in
`Unknown`; its declaration is not in this file.  Only its zero value
`TypeMeta{}` is used. -/
structure TypeMeta where
  APIVersion : String
  Kind : String
  deriving DecidableEq, Repr

/-- Go `TypeMeta{}`. -/
def TypeMeta.zero : TypeMeta := ⟨"", ""⟩

/-- Modelled from the spec: a version identifier (`unversioned.GroupVersion`),
declared in another package. -/
structure GroupVersion where
  Group : String
  Version : String
  deriving DecidableEq, Repr

/-- Modelled from the spec: the opaque undecoded value `Unknown`, declared in
another file of the package: type information and the raw bytes. -/
structure Unknown where
  TypeMeta : Runtime.TypeMeta
  RawJSON : ByteSlice
  deriving DecidableEq, Repr

/-- The struct `encodable` (lines 26-30), over the type `O` of objects. -/
structure encodable (ε O : Type) where
  e : ε
  obj : O
  versions : List GroupVersion

/-- A value of the interface type `Object`.  `ε` is the type of encoder
references and `κ` the type of all concrete objects other than `*Unknown` and
`encodable`.

* `nil` is the nil interface;
* `unknownPtr p` has dynamic type `*Unknown` and dynamic value `p`, which may
  be the nil pointer;
* `encodableVal w` has dynamic type `encodable`;
* `concrete x` is any other object. -/
inductive Object (ε κ : Type) where
  | nil : Object ε κ
  | unknownPtr (p : Option Unknown) : Object ε κ
  | encodableVal (w : encodable ε (Object ε κ)) : Object ε κ
  | concrete (x : κ) : Object ε κ

/-- Modelled from the spec: the dual representation `RawExtension`, declared
in another file of the package: raw bytes and an optional typed object. -/
structure RawExtension (ε κ : Type) where
  RawJSON : ByteSlice
  Object : Runtime.Object ε κ

/-- Modelled from the spec: the external capability
`Encoder.encode(object, versions) -> bytes | error`.  An encoder reference of
type `ε` is interpreted by a function that takes the object, the ordered
version list and the state of the outside world `σ`, and returns the Go
result pair together with the new state. -/
abbrev EncoderSem (ε κ σ : Type) :=
  ε → Object ε κ → List GroupVersion → σ → (ByteSlice × Option GoError) × σ

/-- Modelled from the spec: the package helper `Encode(e, obj, overrides...)`,
declared in another file: it invokes the encoder on the object with the given
version list and returns what the encoder returns. -/
def Encode {ε κ σ : Type} (sem : EncoderSem ε κ σ) (e : ε) (obj : Object ε κ)
    (overrides : List GroupVersion) (st : σ) : (ByteSlice × Option GoError) × σ :=
  sem e obj overrides st

/-! ## The lazy wrapper -/

/-- The test `_, ok := obj.(*Unknown)`: it looks at the dynamic type only, so
it succeeds on a nil `*Unknown` and fails on the nil interface. -/
def isUnknown {ε κ : Type} : Object ε κ → Bool
  | .unknownPtr _ => true
  | _ => false

/-- The function `NewEncodable` (lines 36-41). -/
def NewEncodable {ε κ : Type} (e : ε) (obj : Object ε κ)
    (versions : List GroupVersion) : Object ε κ :=
  if isUnknown obj then obj
  else .encodableVal ⟨e, obj, versions⟩

/-- The method `encodable.UnmarshalJSON` (lines 43-45); the receiver is a
value, so nothing is written. -/
def encodable.UnmarshalJSON {ε O : Type} (_re : encodable ε O) (_data : ByteSlice) :
    Option GoError :=
  some (errorsNew "runtime.encodable cannot be unmarshalled from JSON")

/-- The method `encodable.MarshalJSON` (lines 49-51): `Encode(re.e, re.obj)`,
called with no variadic argument. -/
def encodable.MarshalJSON {ε κ σ : Type} (sem : EncoderSem ε κ σ)
    (re : encodable ε (Object ε κ)) (st : σ) : (ByteSlice × Option GoError) × σ :=
  Encode sem re.e re.obj [] st

/-- The loop of `NewEncodableList` (lines 57-63) from index `i` on, `out`
being the output slice written so far. -/
def NewEncodableList.loop {ε κ : Type} (e : ε) (objects : List (Object ε κ))
    (versions : List GroupVersion) (i : Nat) (out : List (Object ε κ)) :
    List (Object ε κ) :=
  if h : i < objects.length then
    if isUnknown objects[i] then
      NewEncodableList.loop e objects versions (i + 1) (out.set i objects[i])
    else
      NewEncodableList.loop e objects versions (i + 1)
        (out.set i (NewEncodable e objects[i] versions))
  else out
termination_by objects.length - i

/-- The function `NewEncodableList` (lines 55-65): `make([]Object, len(objects))`
is a slice of nil interfaces, which the loop then fills. -/
def NewEncodableList {ε κ : Type} (e : ε) (objects : List (Object ε κ))
    (versions : List GroupVersion) : List (Object ε κ) :=
  NewEncodableList.loop e objects versions 0 (List.replicate objects.length Object.nil)

/-! ## `Unknown` -/

/-- The method `(*Unknown).UnmarshalJSON` (lines 67-74).  The receiver is a
pointer; the result is the new contents behind it and the returned error. -/
def Unknown.UnmarshalJSON (re : Option Unknown) (data : ByteSlice) :
    Option Unknown × Option GoError :=
  match re with
  | none => (none, some (errorsNew "runtime.Unknown: UnmarshalJSON on nil pointer"))
  | some u =>
    (some { TypeMeta := TypeMeta.zero,
            RawJSON := goAppend (resliceEmpty u.RawJSON) data },
     none)

/-- The method `Unknown.MarshalJSON` (lines 78-83). -/
def Unknown.MarshalJSON (re : Unknown) : ByteSlice × Option GoError :=
  match re.RawJSON with
  | none => (some nullLiteral, none)
  | some bs => (some bs, none)

/-! ## The conversion functions -/

namespace DefaultEmbeddedConversions

/-- Lines 100-105 of the first conversion function: what is done with `obj`
once the `*Unknown` case has been dealt with. -/
def storeObject {ε κ : Type} (dst : RawExtension ε κ) (obj : Object ε κ) :
    RawExtension ε κ × Option GoError :=
  match obj with
  | .nil => ({ dst with RawJSON := none }, none)
  | _ => ({ dst with Object := obj }, none)

/-- The first function of `DefaultEmbeddedConversions` (lines 87-106),
`Object -> RawExtension`.  `src` and `out` are the two pointers, `s` the
scope, which is not used.  The result is `none` when a nil pointer is
dereferenced; otherwise it is the new contents behind `out` and the returned
error.  Every path reads or writes through `out`. -/
def objectToRawExtension {ε κ γ : Type} (src : Option (Object ε κ))
    (out : Option (RawExtension ε κ)) (_s : γ) :
    Option (RawExtension ε κ × Option GoError) :=
  match out with
  | none => none
  | some dst =>
    match src with
    | none => some ({ dst with RawJSON := some nullLiteral }, none)
    | some obj =>
      match obj with
      | .unknownPtr none => none
      | .unknownPtr (some unk) =>
        match unk.RawJSON with
        | some bs => some ({ dst with RawJSON := some bs }, none)
        | none => some (storeObject dst dst.Object)
      | _ => some (storeObject dst obj)

/-- The second function of `DefaultEmbeddedConversions` (lines 108-122),
`RawExtension -> Object`.  The result is `none` when a nil pointer is
dereferenced; otherwise it is the new value behind `out` and the returned
error. -/
def rawExtensionToObject {ε κ γ : Type} (src : Option (RawExtension ε κ))
    (out : Option (Object ε κ)) (_s : γ) :
    Option (Object ε κ × Option GoError) :=
  match src with
  | none => none
  | some r =>
    match out with
    | none => none
    | some _ =>
      match r.Object with
      | .nil =>
        if len r.RawJSON = 0 ∨ (len r.RawJSON = 4 ∧ elems r.RawJSON = nullLiteral) then
          some (.nil, none)
        else
          some (.unknownPtr (some { TypeMeta := TypeMeta.zero, RawJSON := r.RawJSON }), none)
      | o => some (o, none)

end DefaultEmbeddedConversions


variable {ε κ : Type}

/-! ## The three states of a `RawExtension`, as the specification lists them -/

/-- The typed slot is set: the interface value is not nil. -/
def typedSet (d : RawExtension ε κ) : Bool :=
  match d.Object with
  | .nil => false
  | _ => true

/-- The raw bytes are absent: nil or of length zero. -/
def rawAbsent (d : RawExtension ε κ) : Bool := decide (len d.RawJSON = 0)

/-- State (a): typed set, raw bytes absent. -/
def inStateA (d : RawExtension ε κ) : Bool := typedSet d && rawAbsent d

/-- State (b): raw bytes set, non-empty and not the literal null; typed absent. -/
def inStateB (d : RawExtension ε κ) : Bool :=
  !rawAbsent d && decide (elems d.RawJSON ≠ nullLiteral) && !typedSet d

/-- State (c): both absent. -/
def inStateC (d : RawExtension ε κ) : Bool := !typedSet d && rawAbsent d

/-- Exactly one of the states (a), (b), (c) holds. -/
def inExactlyOneState (d : RawExtension ε κ) : Bool :=
  (inStateA d && !inStateB d && !inStateC d) ||
  (!inStateA d && inStateB d && !inStateC d) ||
  (!inStateA d && !inStateB d && inStateC d)

/-! ## A test encoder -/

/-- An encoder whose output is the number of versions it was handed. -/
def versionCountingEncoder : EncoderSem Unit Unit Unit :=
  fun _ _ versions st => ((some [Fin.ofNat versions.length], none), st)

/-! ## An encoder that records its invocations -/

/-- One invocation of the encoder: the encoder reference, the object and the
version list it was handed. -/
abbrev Invocation (ε κ : Type) := ε × Object ε κ × List GroupVersion

/-- An encoder whose world state is the list of the invocations made so far:
each call appends its arguments and returns what `result` gives for them. -/
def recordingEncoder (result : ε → Object ε κ → List GroupVersion → ByteSlice × Option GoError) :
    EncoderSem ε κ (List (Invocation ε κ)) :=
  fun e obj versions log => (result e obj versions, log ++ [(e, obj, versions)])

/-- The number of encoder invocations recorded in a world state. -/
def invocationCount (log : List (Invocation ε κ)) : Nat := log.length

/-- Calling `MarshalJSON` on the same wrapper `n` times in a row, the world
state being threaded from one call to the next; the results are listed in
call order. -/
def marshalRepeatedly {σ : Type} (sem : EncoderSem ε κ σ) (re : encodable ε (Object ε κ)) :
    Nat → σ → List (ByteSlice × Option GoError) × σ
  | 0, st => ([], st)
  | n + 1, st =>
    let first := encodable.MarshalJSON sem re st
    let rest := marshalRepeatedly sem re n first.2
    (first.1 :: rest.1, rest.2)

/-! # Properties -/

/-! ## The loop of `NewEncodableList` -/

theorem NewEncodable_of_isUnknown (e : ε) (obj : Object ε κ) (vs : List GroupVersion)
    (h : isUnknown obj = true) : NewEncodable e obj vs = obj := by
  simp [NewEncodable, h]

theorem loop_length (e : ε) (objects : List (Object ε κ)) (vs : List GroupVersion) :
    ∀ (n i : Nat) (out : List (Object ε κ)), objects.length - i = n →
      (NewEncodableList.loop e objects vs i out).length = out.length := by
  intro n
  induction n with
  | zero =>
    intro i out h
    rw [NewEncodableList.loop]
    have : ¬ i < objects.length := by omega
    simp [this]
  | succ n ih =>
    intro i out h
    rw [NewEncodableList.loop]
    have hi : i < objects.length := by omega
    simp only [hi, dite_true]
    split
    · rw [ih (i + 1) _ (by omega)]; simp
    · rw [ih (i + 1) _ (by omega)]; simp

theorem loop_getElem (e : ε) (objects : List (Object ε κ)) (vs : List GroupVersion) :
    ∀ (n i : Nat) (out : List (Object ε κ)), objects.length - i = n →
      out.length = objects.length → ∀ j (hj : j < objects.length),
      (NewEncodableList.loop e objects vs i out)[j]? =
        if i ≤ j then some (NewEncodable e objects[j] vs) else out[j]? := by
  intro n
  induction n with
  | zero =>
    intro i out h hlen j hj
    rw [NewEncodableList.loop]
    have : ¬ i < objects.length := by omega
    have h2 : ¬ i ≤ j := by omega
    simp [this, h2]
  | succ n ih =>
    intro i out h hlen j hj
    rw [NewEncodableList.loop]
    have hi : i < objects.length := by omega
    simp only [hi, dite_true]
    have key : ∀ out', out' = out.set i (NewEncodable e objects[i] vs) →
        (NewEncodableList.loop e objects vs (i + 1) out')[j]? =
          if i ≤ j then some (NewEncodable e objects[j] vs) else out[j]? := by
      intro out' hout'
      rw [ih (i + 1) out' (by omega) (by simp [hout', hlen]) j hj]
      by_cases h1 : i + 1 ≤ j
      · have : i ≤ j := by omega
        simp [h1, this]
      · by_cases h2 : i = j
        · subst h2
          simp [hout', hlen, hi]
        · have h3 : ¬ i ≤ j := by omega
          simp [h1, h3, hout', List.getElem?_set, h2]
    split
    · rename_i hu
      exact key _ (by rw [NewEncodable_of_isUnknown e _ vs hu])
    · exact key _ rfl


open DefaultEmbeddedConversions

/-! ## Round trips through `Unknown` -/

/-- C1: for every receiver state and every non-empty `b` other than the
literal null, `UnmarshalJSON(b)` succeeds and a following `MarshalJSON`
succeeds and returns exactly `b`. -/
theorem Unknown_unmarshal_marshal_roundtrip (u : Unknown) (b : List Byte)
    (hne : b ≠ []) (_hnull : b ≠ nullLiteral) :
    ∃ u', Unknown.UnmarshalJSON (some u) (some b) = (some u', none) ∧
      Unknown.MarshalJSON u' = (some b, none) := by
  refine ⟨⟨TypeMeta.zero, some b⟩, ?_, rfl⟩
  cases hraw : u.RawJSON with
  | none => simp [Unknown.UnmarshalJSON, hraw, resliceEmpty, goAppend, elems, hne]
  | some old => simp [Unknown.UnmarshalJSON, hraw, resliceEmpty, goAppend, elems]

/-- Witness of C1 on a receiver that holds longer bytes and type information. -/
theorem Unknown_unmarshal_marshal_roundtrip_witness :
    ∃ u', Unknown.UnmarshalJSON (some ⟨⟨"v1", "Pod"⟩, some [1, 2, 3, 4, 5]⟩) (some [123, 125])
        = (some u', none) ∧
      Unknown.MarshalJSON u' = (some [123, 125], none) :=
  Unknown_unmarshal_marshal_roundtrip ⟨⟨"v1", "Pod"⟩, some [1, 2, 3, 4, 5]⟩ [123, 125]
    (by decide) (by decide)

/-! ## The serialize contract of `encodable` -/

/-- What `encodable.MarshalJSON` does: it invokes the encoder on the held
object with an empty version list, whatever versions are held. -/
theorem encodable_MarshalJSON_eq {σ : Type} (sem : EncoderSem ε κ σ) (e : ε)
    (obj : Object ε κ) (vs : List GroupVersion) (st : σ) :
    encodable.MarshalJSON sem ⟨e, obj, vs⟩ st = sem e obj [] st := rfl

/-- C2: on a wrapper holding one version, `MarshalJSON` returns what the
encoder produces for no versions (the byte 0), not what it produces for the
held version list (the byte 1). -/
theorem encodable_MarshalJSON_drops_versions :
    encodable.MarshalJSON versionCountingEncoder
        ⟨(), Object.concrete (), [⟨"apps", "v1"⟩]⟩ () = ((some [0], none), ()) ∧
      versionCountingEncoder () (Object.concrete ()) [⟨"apps", "v1"⟩] ()
        = ((some [1], none), ()) := by
  constructor <;> rfl

/-! ## The bridge -/

/-- C3: a source holding raw bytes `b` (non-empty, not the literal null) and no
typed object, converted to an Object and back into any destination, leaves
the destination's `RawJSON` equal to `b`. -/
theorem bridge_preserves_raw_bytes {γ : Type} (b : List Byte) (hne : b ≠ [])
    (hnull : b ≠ nullLiteral) (prior : Object ε κ) (dst : RawExtension ε κ) (s : γ) :
    ∃ obj dst',
      rawExtensionToObject (some ⟨some b, Object.nil⟩) (some prior) s = some (obj, none) ∧
      objectToRawExtension (some obj) (some dst) s = some (dst', none) ∧
      dst'.RawJSON = some b := by
  refine ⟨.unknownPtr (some ⟨TypeMeta.zero, some b⟩), ⟨some b, dst.Object⟩, ?_, rfl, rfl⟩
  have h0 : ¬ len (some b) = 0 := by
    simpa [len, elems] using hne
  have h4 : ¬ (len (some b) = 4 ∧ elems (some b) = nullLiteral) := by
    intro h; exact hnull (by simpa [elems] using h.2)
  simp [rawExtensionToObject, h0, h4]

/-- Witness of C3 on the bytes `{"x":5}` and a destination that holds both
other bytes and a typed object. -/
theorem bridge_preserves_raw_bytes_witness :
    ∃ (obj : Object Unit Unit) (dst' : RawExtension Unit Unit),
      rawExtensionToObject (some ⟨some [123, 34, 120, 34, 58, 53, 125], Object.nil⟩)
        (some (Object.concrete ())) () = some (obj, none) ∧
      objectToRawExtension (some obj) (some ⟨some [1, 2], Object.concrete ()⟩) ()
        = some (dst', none) ∧
      dst'.RawJSON = some [123, 34, 120, 34, 58, 53, 125] :=
  bridge_preserves_raw_bytes [123, 34, 120, 34, 58, 53, 125] (by decide) (by decide)
    (Object.concrete ()) ⟨some [1, 2], Object.concrete ()⟩ ()

/-- C4, as stated, fails: on an Object whose dynamic value is a nil `*Unknown`
the first conversion dereferences the nil pointer. -/
theorem objectToRawExtension_nil_unknown_panics :
    objectToRawExtension (some (Object.unknownPtr none : Object Unit Unit))
      (some ⟨none, Object.nil⟩) () = none := rfl

/-- C4, amended: the first conversion completes normally exactly when the
destination pointer is not nil and the source is not an Object whose dynamic
value is a nil `*Unknown`; the second exactly when neither pointer is nil. -/
theorem bridge_completes_iff {γ : Type} (src : Option (Object ε κ))
    (out : Option (RawExtension ε κ)) (rsrc : Option (RawExtension ε κ))
    (rout : Option (Object ε κ)) (s : γ) :
    ((objectToRawExtension src out s).isSome = true ↔
        (out ≠ none ∧ src ≠ some (Object.unknownPtr none))) ∧
      ((rawExtensionToObject rsrc rout s).isSome = true ↔
        (rsrc ≠ none ∧ rout ≠ none)) := by
  constructor
  · cases out with
    | none => simp [objectToRawExtension]
    | some dst =>
      cases src with
      | none => simp [objectToRawExtension]
      | some obj =>
        cases obj with
        | nil => simp [objectToRawExtension]
        | unknownPtr p =>
          cases p with
          | none => simp [objectToRawExtension]
          | some unk =>
            cases h : unk.RawJSON <;> simp [objectToRawExtension, h]
        | encodableVal w => simp [objectToRawExtension]
        | concrete x => simp [objectToRawExtension]
  · cases rsrc with
    | none => simp [rawExtensionToObject]
    | some r =>
      cases rout with
      | none => simp [rawExtensionToObject]
      | some o =>
        simp only [rawExtensionToObject]
        split
        · split <;> simp
        · simp


/-! ## The state invariant and the bridge -/

theorem inExactlyOneState_iff (d : RawExtension ε κ) :
    inExactlyOneState d = true ↔
      (rawAbsent d = true ∨ (typedSet d = false ∧ elems d.RawJSON ≠ nullLiteral)) := by
  simp only [inExactlyOneState, inStateA, inStateB, inStateC]
  cases typedSet d <;> cases rawAbsent d <;> simp

/-- C5, as stated, fails: a destination in state (c) and a nil source
reference leave the destination with the literal null as raw bytes and no
typed object, which is none of the three states. -/
theorem objectToRawExtension_breaks_state_invariant :
    inExactlyOneState (⟨none, Object.nil⟩ : RawExtension Unit Unit) = true ∧
      objectToRawExtension none (some (⟨none, Object.nil⟩ : RawExtension Unit Unit)) ()
        = some (⟨some nullLiteral, Object.nil⟩, none) ∧
      inExactlyOneState (⟨some nullLiteral, Object.nil⟩ : RawExtension Unit Unit) = false := by
  refine ⟨rfl, rfl, ?_⟩
  decide


/-- C5, amended: from a destination in exactly one of the states, the
destination after a returning `Object -> RawExtension` conversion is again in
exactly one of the states if and only if the source reference is not nil, a
`*Unknown` source with non-nil raw bytes carries either no bytes or bytes other
than the literal null into a destination without a typed object, and a non-nil
source that is not a `*Unknown` meets a destination without raw bytes. -/
theorem objectToRawExtension_state_iff {γ : Type} (src : Option (Object ε κ))
    (dst dst' : RawExtension ε κ) (err : Option GoError) (s : γ)
    (hpre : inExactlyOneState dst = true)
    (hrun : objectToRawExtension src (some dst) s = some (dst', err)) :
    inExactlyOneState dst' = true ↔
      (src ≠ none ∧
        (∀ u bs, src = some (Object.unknownPtr (some u)) → u.RawJSON = some bs →
          bs = [] ∨ (typedSet dst = false ∧ bs ≠ nullLiteral)) ∧
        (∀ obj, src = some obj → isUnknown obj = false → obj ≠ Object.nil →
          rawAbsent dst = true)) := by
  rw [inExactlyOneState_iff] at hpre ⊢
  cases src with
  | none =>
    simp only [objectToRawExtension, Option.some.injEq, Prod.mk.injEq] at hrun
    obtain ⟨rfl, -⟩ := hrun
    simp [rawAbsent, typedSet, len, elems, nullLiteral]
  | some obj =>
    cases obj with
    | nil =>
      simp only [objectToRawExtension, storeObject, Option.some.injEq, Prod.mk.injEq] at hrun
      obtain ⟨rfl, -⟩ := hrun
      simp [rawAbsent, len, elems, isUnknown]
    | unknownPtr p =>
      cases p with
      | none => simp [objectToRawExtension] at hrun
      | some unk =>
        cases h : unk.RawJSON with
        | none =>
          simp only [objectToRawExtension, h, Option.some.injEq] at hrun
          have hd : inExactlyOneState dst' = true := by
            rw [inExactlyOneState_iff]
            cases hobj : dst.Object with
            | nil =>
              simp only [storeObject, hobj, Prod.mk.injEq] at hrun
              obtain ⟨rfl, -⟩ := hrun
              simp [rawAbsent, len, elems]
            | unknownPtr q =>
              simp only [storeObject, hobj, Prod.mk.injEq] at hrun
              obtain ⟨rfl, -⟩ := hrun
              simpa [rawAbsent, typedSet, hobj] using hpre
            | encodableVal w =>
              simp only [storeObject, hobj, Prod.mk.injEq] at hrun
              obtain ⟨rfl, -⟩ := hrun
              simpa [rawAbsent, typedSet, hobj] using hpre
            | concrete x =>
              simp only [storeObject, hobj, Prod.mk.injEq] at hrun
              obtain ⟨rfl, -⟩ := hrun
              simpa [rawAbsent, typedSet, hobj] using hpre
          rw [inExactlyOneState_iff] at hd
          simp only [hd, true_iff]
          refine ⟨by simp, ?_, ?_⟩
          · intro u bs hu hbs
            simp only [Option.some.injEq, Object.unknownPtr.injEq] at hu
            subst hu
            rw [h] at hbs
            cases hbs
          · intro obj hobj hun
            simp only [Option.some.injEq] at hobj
            subst hobj
            simp [isUnknown] at hun
        | some bs =>
          simp only [objectToRawExtension, h, Option.some.injEq, Prod.mk.injEq] at hrun
          obtain ⟨rfl, -⟩ := hrun
          constructor
          · intro hv
            refine ⟨by simp, ?_, ?_⟩
            · intro u bs' hu hbs'
              simp only [Option.some.injEq, Object.unknownPtr.injEq] at hu
              subst hu
              rw [h] at hbs'
              simp only [Option.some.injEq] at hbs'
              subst hbs'
              simpa [rawAbsent, typedSet, len, elems] using hv
            · intro obj hobj hun
              simp only [Option.some.injEq] at hobj
              subst hobj
              simp [isUnknown] at hun
          · rintro ⟨-, h2, -⟩
            simpa [rawAbsent, typedSet, len, elems] using h2 unk bs rfl h
    | encodableVal w =>
      simp only [objectToRawExtension, storeObject, Option.some.injEq, Prod.mk.injEq] at hrun
      obtain ⟨rfl, -⟩ := hrun
      simp [rawAbsent, typedSet, isUnknown]
    | concrete x =>
      simp only [objectToRawExtension, storeObject, Option.some.injEq, Prod.mk.injEq] at hrun
      obtain ⟨rfl, -⟩ := hrun
      simp [rawAbsent, typedSet, isUnknown]


/-- Witness of C5 on a zero destination and a typed source object, which ends
in state (a). -/
theorem objectToRawExtension_state_iff_witness :
    inExactlyOneState (⟨none, Object.nil⟩ : RawExtension Unit Unit) = true ∧
      objectToRawExtension (some (Object.concrete ()))
        (some (⟨none, Object.nil⟩ : RawExtension Unit Unit)) ()
        = some (⟨none, Object.concrete ()⟩, none) ∧
      inExactlyOneState (⟨none, Object.concrete ()⟩ : RawExtension Unit Unit) = true :=
  ⟨rfl, rfl,
    (objectToRawExtension_state_iff (some (Object.concrete ())) ⟨none, Object.nil⟩
      ⟨none, Object.concrete ()⟩ none () rfl rfl).mpr
      ⟨by simp, by intro u bs h; simp at h, by intro obj _ _ _; rfl⟩⟩

/-! ## Decoding into `Unknown` -/

/-- C6, as stated, fails: after `UnmarshalJSON` of the literal null the
receiver's `RawJSON` is not nil but holds the four bytes; and on a receiver
that holds bytes, `UnmarshalJSON` of the empty sequence leaves a non-nil empty
`RawJSON`, for which `MarshalJSON` returns the empty sequence. -/
theorem Unknown_UnmarshalJSON_null_not_absent :
    Unknown.UnmarshalJSON (some ⟨TypeMeta.zero, none⟩) (some nullLiteral)
        = (some ⟨TypeMeta.zero, some nullLiteral⟩, none) ∧
      (some nullLiteral : ByteSlice) ≠ none ∧
      Unknown.UnmarshalJSON (some ⟨TypeMeta.zero, some [49]⟩) (some [])
        = (some ⟨TypeMeta.zero, some []⟩, none) ∧
      Unknown.MarshalJSON ⟨TypeMeta.zero, some []⟩ = (some [], none) ∧
      (some [] : ByteSlice) ≠ some nullLiteral := by
  refine ⟨rfl, by simp, rfl, rfl, by decide⟩

/-- C6, amended: on every non-nil receiver `UnmarshalJSON` clears the type
information; for the literal null it leaves `RawJSON` holding exactly those
four bytes and `MarshalJSON` returns them; for empty input (nil or of length
zero) on a receiver whose `RawJSON` was nil it leaves `RawJSON` nil and
`MarshalJSON` returns the literal null; for empty input on a receiver whose
`RawJSON` was not nil it leaves a non-nil empty `RawJSON`, which `MarshalJSON`
returns as it is. -/
theorem Unknown_null_and_empty_decoding (tm : TypeMeta) (raw : ByteSlice)
    (old : List Byte) :
    (Unknown.UnmarshalJSON (some ⟨tm, raw⟩) (some nullLiteral)
        = (some ⟨TypeMeta.zero, some nullLiteral⟩, none) ∧
      Unknown.MarshalJSON ⟨TypeMeta.zero, some nullLiteral⟩ = (some nullLiteral, none)) ∧
    (Unknown.UnmarshalJSON (some ⟨tm, none⟩) none = (some ⟨TypeMeta.zero, none⟩, none) ∧
      Unknown.UnmarshalJSON (some ⟨tm, none⟩) (some []) = (some ⟨TypeMeta.zero, none⟩, none) ∧
      Unknown.MarshalJSON ⟨TypeMeta.zero, none⟩ = (some nullLiteral, none)) ∧
    (Unknown.UnmarshalJSON (some ⟨tm, some old⟩) none
        = (some ⟨TypeMeta.zero, some []⟩, none) ∧
      Unknown.UnmarshalJSON (some ⟨tm, some old⟩) (some [])
        = (some ⟨TypeMeta.zero, some []⟩, none) ∧
      Unknown.MarshalJSON ⟨TypeMeta.zero, some []⟩ = (some [], none)) := by
  refine ⟨⟨?_, rfl⟩, ⟨rfl, rfl, rfl⟩, ⟨rfl, rfl, rfl⟩⟩
  cases raw with
  | none => simp [Unknown.UnmarshalJSON, resliceEmpty, goAppend, elems, nullLiteral]
  | some bs => simp [Unknown.UnmarshalJSON, resliceEmpty, goAppend, elems]

/-- C7: `encodable.UnmarshalJSON` returns the same non-nil error for every
wrapper and every input. -/
theorem encodable_UnmarshalJSON_rejects {O : Type} (re : encodable ε O)
    (data : ByteSlice) :
    encodable.UnmarshalJSON re data
        = some (errorsNew "runtime.encodable cannot be unmarshalled from JSON") ∧
      encodable.UnmarshalJSON re data ≠ none := by
  simp [encodable.UnmarshalJSON]

/-- C8, as stated, fails: on a nil pointer receiver `UnmarshalJSON` returns
an error. -/
theorem Unknown_UnmarshalJSON_nil_receiver_fails :
    (Unknown.UnmarshalJSON none (some [123, 125])).2
      = some (errorsNew "runtime.Unknown: UnmarshalJSON on nil pointer") := rfl

/-- C8, amended: `UnmarshalJSON` returns no error on every non-nil receiver
and every input, nil input included; on the nil receiver it returns an error
for every input and writes nothing. -/
theorem Unknown_UnmarshalJSON_error_iff (re : Option Unknown) (data : ByteSlice) :
    ((Unknown.UnmarshalJSON re data).2 = none ↔ re ≠ none) ∧
      (Unknown.UnmarshalJSON none data
        = (none, some (errorsNew "runtime.Unknown: UnmarshalJSON on nil pointer"))) := by
  cases re <;> simp [Unknown.UnmarshalJSON]

/-- C9: after `UnmarshalJSON(data)` on a non-nil receiver the type information
is the zero value and the stored raw bytes have exactly the length and the
elements of `data`. -/
theorem Unknown_UnmarshalJSON_post_state (u : Unknown) (data : ByteSlice) :
    ∃ u', Unknown.UnmarshalJSON (some u) data = (some u', none) ∧
      u'.TypeMeta = TypeMeta.zero ∧
      len u'.RawJSON = len data ∧
      elems u'.RawJSON = elems data := by
  refine ⟨_, rfl, rfl, ?_⟩
  have h : elems (goAppend (resliceEmpty u.RawJSON) data) = elems data := by
    cases u.RawJSON with
    | none =>
      show elems (if elems data = [] then none else some (elems data)) = elems data
      by_cases hd : elems data = []
      · rw [if_pos hd, hd]; rfl
      · rw [if_neg hd]; rfl
    | some old => simp [resliceEmpty, goAppend, elems]
  exact ⟨by simp only [len, h], h⟩

/-! ## Wrapping -/

/-- C10: `NewEncodable` returns a `*Unknown` object itself and wraps every
other object in an `encodable` holding exactly the arguments; every `*Unknown`
element of the input of `NewEncodableList` is the element of the output at the
same index. -/
theorem NewEncodable_passthrough_and_wrap (e : ε) (vs : List GroupVersion) :
    (∀ p : Option Unknown,
        NewEncodable e (Object.unknownPtr p : Object ε κ) vs = Object.unknownPtr p) ∧
      (∀ obj : Object ε κ, isUnknown obj = false →
        NewEncodable e obj vs = Object.encodableVal ⟨e, obj, vs⟩) ∧
      (∀ (objects : List (Object ε κ)) (i : Nat) (p : Option Unknown),
        objects[i]? = some (Object.unknownPtr p) →
        (NewEncodableList e objects vs)[i]? = some (Object.unknownPtr p)) := by
  refine ⟨fun p => rfl, ?_, ?_⟩
  · intro obj h
    simp [NewEncodable, h]
  · intro objects i p h
    obtain ⟨hi, hget⟩ := List.getElem?_eq_some_iff.mp h
    rw [NewEncodableList,
      loop_getElem e objects vs objects.length 0 _ (by simp) (by simp) i hi]
    simp [hget, NewEncodable, isUnknown]

/-- Witness of C10 on a two-element list whose second element is a `*Unknown`. -/
theorem NewEncodable_passthrough_and_wrap_witness :
    NewEncodable () (Object.concrete 7 : Object Unit Nat) [⟨"apps", "v1"⟩]
        = Object.encodableVal ⟨(), Object.concrete 7, [⟨"apps", "v1"⟩]⟩ ∧
      (NewEncodableList ()
          [(Object.concrete 7 : Object Unit Nat),
            Object.unknownPtr (some ⟨TypeMeta.zero, some [123, 125]⟩)]
          [⟨"apps", "v1"⟩])[1]?
        = some (Object.unknownPtr (some ⟨TypeMeta.zero, some [123, 125]⟩)) :=
  ⟨(NewEncodable_passthrough_and_wrap () [⟨"apps", "v1"⟩]).2.1 (Object.concrete 7) rfl,
    (NewEncodable_passthrough_and_wrap () [⟨"apps", "v1"⟩]).2.2
      [Object.concrete 7, Object.unknownPtr (some ⟨TypeMeta.zero, some [123, 125]⟩)] 1
      (some ⟨TypeMeta.zero, some [123, 125]⟩) rfl⟩

/-! ## The list variant -/

/-- C11: `NewEncodableList` has the length of its input and its element at
every index is `NewEncodable` of the input's element at that index; the input
is only read. -/
theorem NewEncodableList_elementwise (e : ε) (objects : List (Object ε κ))
    (vs : List GroupVersion) :
    (NewEncodableList e objects vs).length = objects.length ∧
      (∀ i : Nat, (NewEncodableList e objects vs)[i]?
        = (objects[i]?).map (fun obj => NewEncodable e obj vs)) ∧
      NewEncodableList e objects vs = objects.map (fun obj => NewEncodable e obj vs) := by
  have hlen : (NewEncodableList e objects vs).length = objects.length := by
    rw [NewEncodableList, loop_length e objects vs objects.length 0 _ (by simp)]
    simp
  have hget : ∀ i : Nat, (NewEncodableList e objects vs)[i]?
      = (objects[i]?).map (fun obj => NewEncodable e obj vs) := by
    intro i
    by_cases hi : i < objects.length
    · rw [NewEncodableList,
        loop_getElem e objects vs objects.length 0 _ (by simp) (by simp) i hi]
      simp [List.getElem?_eq_getElem hi]
    · have h1 : objects[i]? = none := List.getElem?_eq_none (by omega)
      have h2 : (NewEncodableList e objects vs)[i]? = none :=
        List.getElem?_eq_none (by omega)
      rw [h1, h2]; rfl
  refine ⟨hlen, hget, ?_⟩
  apply List.ext_getElem?
  intro i
  rw [hget i, List.getElem?_map]

/-! ## `Object -> RawExtension`, branch by branch -/

/-- C12, as stated, fails: a source reference to a nil Object leaves the
destination with nil raw bytes, not with the literal null. -/
theorem objectToRawExtension_nil_object_clears :
    objectToRawExtension (some (Object.nil : Object Unit Unit))
        (some ⟨some [49], Object.concrete ()⟩) ()
        = some (⟨none, Object.concrete ()⟩, none) ∧
      (none : ByteSlice) ≠ some nullLiteral := by
  refine ⟨rfl, by simp⟩

/-- C12, amended: with a nil source reference the destination's raw bytes
become the literal null; with a source reference to a nil Object they become
nil; in both cases the typed slot is unchanged. -/
theorem objectToRawExtension_nil_source {γ : Type} (dst : RawExtension ε κ) (s : γ) :
    objectToRawExtension none (some dst) s
        = some (⟨some nullLiteral, dst.Object⟩, none) ∧
      objectToRawExtension (some Object.nil) (some dst) s
        = some (⟨none, dst.Object⟩, none) := by
  constructor <;> rfl

/-- C13, as stated, fails: a `*Unknown` source whose raw bytes are a non-nil
slice of length zero takes the copying branch: the destination's raw bytes are
replaced by the source's, which is not what the fallback does. -/
theorem objectToRawExtension_copies_empty_raw :
    len (some [] : ByteSlice) = 0 ∧
      objectToRawExtension
          (some (Object.unknownPtr (some ⟨TypeMeta.zero, some []⟩) : Object Unit Unit))
          (some ⟨some [49, 50], Object.concrete ()⟩) ()
        = some (⟨some [], Object.concrete ()⟩, none) ∧
      (some ((⟨some [], Object.concrete ()⟩ : RawExtension Unit Unit), (none : Option GoError))
        ≠ some (storeObject ⟨some [49, 50], Object.concrete ()⟩ (Object.concrete ()))) := by
  refine ⟨rfl, rfl, ?_⟩
  simp [storeObject]

/-- C13, amended: for a non-nil `*Unknown` source the copying branch is taken
exactly when the source's `RawJSON` is not nil, a non-nil slice of length zero
included: the destination's raw bytes are then the source's and its typed slot
is unchanged; when `RawJSON` is nil the fallback on the destination's typed
slot runs instead. -/
theorem objectToRawExtension_unknown_source {γ : Type} (tm : TypeMeta)
    (dst : RawExtension ε κ) (s : γ) :
    (∀ bs : List Byte,
        objectToRawExtension (some (Object.unknownPtr (some ⟨tm, some bs⟩))) (some dst) s
          = some (⟨some bs, dst.Object⟩, none)) ∧
      objectToRawExtension (some (Object.unknownPtr (some ⟨tm, none⟩))) (some dst) s
        = some (storeObject dst dst.Object) := by
  refine ⟨fun bs => rfl, rfl⟩

/-- C14, as stated, fails: a non-nil `*Unknown` source whose `RawJSON` is a
non-nil slice of length zero carries no raw bytes, yet the destination's typed
value does not stand in for it: the source's empty slice is written over the
destination's raw bytes, so a destination that holds a typed object is not
left as it was, and a destination without one does not end with nil raw
bytes. -/
theorem objectToRawExtension_empty_raw_no_fallback :
    len (some [] : ByteSlice) = 0 ∧
      objectToRawExtension
          (some (Object.unknownPtr (some ⟨⟨"v1", "Pod"⟩, some []⟩) : Object Unit Unit))
          (some ⟨some [123, 125], Object.concrete ()⟩) ()
        = some (⟨some [], Object.concrete ()⟩, none) ∧
      (⟨some [], Object.concrete ()⟩ : RawExtension Unit Unit)
        ≠ ⟨some [123, 125], Object.concrete ()⟩ ∧
      objectToRawExtension
          (some (Object.unknownPtr (some ⟨⟨"v1", "Pod"⟩, some []⟩) : Object Unit Unit))
          (some ⟨some [123, 125], Object.nil⟩) ()
        = some (⟨some [], Object.nil⟩, none) ∧
      (some [] : ByteSlice) ≠ none := by
  refine ⟨rfl, rfl, ?_, rfl, ?_⟩
  · simp
  · simp

/-- C14, amended: for a non-nil `*Unknown` source whose `RawJSON` is nil the
destination's prior typed value stands in for the source: if it is nil the
destination's raw bytes are nil afterwards, otherwise the destination is left
as it was, typed slot and raw bytes, and nothing of the source is written.  A
source whose `RawJSON` is a non-nil slice of length zero does not take this
fallback: its empty slice becomes the destination's raw bytes and the typed
slot is unchanged. -/
theorem objectToRawExtension_fallback {γ : Type} (tm : TypeMeta)
    (dst : RawExtension ε κ) (s : γ) :
    (dst.Object = Object.nil →
        objectToRawExtension (some (Object.unknownPtr (some ⟨tm, none⟩))) (some dst) s
          = some (⟨none, Object.nil⟩, none)) ∧
      (dst.Object ≠ Object.nil →
        objectToRawExtension (some (Object.unknownPtr (some ⟨tm, none⟩))) (some dst) s
          = some (dst, none)) ∧
      objectToRawExtension (some (Object.unknownPtr (some ⟨tm, some []⟩))) (some dst) s
        = some (⟨some [], dst.Object⟩, none) := by
  obtain ⟨raw, typed⟩ := dst
  refine ⟨?_, ?_, rfl⟩
  · intro h
    simp only at h
    subst h
    rfl
  · intro h
    cases typed with
    | nil => exact absurd rfl h
    | unknownPtr p => rfl
    | encodableVal w => rfl
    | concrete x => rfl

/-- Witness of C14 on a destination without a typed object and on one with. -/
theorem objectToRawExtension_fallback_witness :
    objectToRawExtension
          (some (Object.unknownPtr (some ⟨⟨"v1", "Pod"⟩, none⟩) : Object Unit Unit))
          (some ⟨some [49], Object.nil⟩) ()
        = some (⟨none, Object.nil⟩, none) ∧
      objectToRawExtension
          (some (Object.unknownPtr (some ⟨⟨"v1", "Pod"⟩, none⟩) : Object Unit Unit))
          (some ⟨some [49], Object.concrete ()⟩) ()
        = some (⟨some [49], Object.concrete ()⟩, none) :=
  ⟨(objectToRawExtension_fallback ⟨"v1", "Pod"⟩ ⟨some [49], Object.nil⟩ ()).1 rfl,
    (objectToRawExtension_fallback ⟨"v1", "Pod"⟩ ⟨some [49], Object.concrete ()⟩ ()).2.1
      (by intro h; cases h)⟩

/-- C15: for a non-nil source Object that is not a `*Unknown` the destination's
typed slot holds that object afterwards; its raw bytes are not touched. -/
theorem objectToRawExtension_typed_source {γ : Type} (obj : Object ε κ)
    (dst : RawExtension ε κ) (s : γ) (hnil : obj ≠ Object.nil)
    (hunk : isUnknown obj = false) :
    ∃ dst', objectToRawExtension (some obj) (some dst) s = some (dst', none) ∧
      dst'.Object = obj ∧ dst'.RawJSON = dst.RawJSON := by
  cases obj with
  | nil => exact absurd rfl hnil
  | unknownPtr p => simp [isUnknown] at hunk
  | encodableVal w => exact ⟨_, rfl, rfl, rfl⟩
  | concrete x => exact ⟨_, rfl, rfl, rfl⟩

/-- Witness of C15 on a destination that holds raw bytes and another object. -/
theorem objectToRawExtension_typed_source_witness :
    ∃ dst' : RawExtension Unit Nat,
      objectToRawExtension (some (Object.concrete 7)) (some ⟨some [49], Object.concrete 3⟩) ()
        = some (dst', none) ∧
      dst'.Object = Object.concrete 7 ∧ dst'.RawJSON = some [49] :=
  objectToRawExtension_typed_source (Object.concrete 7) ⟨some [49], Object.concrete 3⟩ ()
    (by intro h; cases h) rfl

/-! ## `RawExtension -> Object`, branch by branch -/

/-- C16: when the source's typed slot holds `X`, the destination Object is `X`
afterwards, whatever the source's raw bytes and the destination's prior value. -/
theorem rawExtensionToObject_typed_wins {γ : Type} (raw : ByteSlice) (X prior : Object ε κ)
    (s : γ) (hX : X ≠ Object.nil) :
    rawExtensionToObject (some ⟨raw, X⟩) (some prior) s = some (X, none) := by
  cases X with
  | nil => exact absurd rfl hX
  | unknownPtr p => rfl
  | encodableVal w => rfl
  | concrete x => rfl

/-- Witness of C16 on a source that also holds raw bytes. -/
theorem rawExtensionToObject_typed_wins_witness :
    rawExtensionToObject (some ⟨some [123, 125], (Object.concrete 7 : Object Unit Nat)⟩)
      (some (Object.concrete 3)) () = some (Object.concrete 7, none) :=
  rawExtensionToObject_typed_wins (some [123, 125]) (Object.concrete 7) (Object.concrete 3) ()
    (by intro h; cases h)

/-- C17: when the source's typed slot is empty, the destination Object is nil
if and only if the source's raw bytes are nil, empty or the literal null;
otherwise it is a `*Unknown` with the source's raw bytes and zero type
information. -/
theorem rawExtensionToObject_raw_case {γ : Type} (raw : ByteSlice) (prior : Object ε κ)
    (s : γ) :
    ∃ obj, rawExtensionToObject (some ⟨raw, Object.nil⟩) (some prior) s = some (obj, none) ∧
      (obj = Object.nil ↔ (elems raw = [] ∨ elems raw = nullLiteral)) ∧
      (¬ (elems raw = [] ∨ elems raw = nullLiteral) →
        obj = Object.unknownPtr (some ⟨TypeMeta.zero, raw⟩)) := by
  have hcond : (len raw = 0 ∨ (len raw = 4 ∧ elems raw = nullLiteral)) ↔
      (elems raw = [] ∨ elems raw = nullLiteral) := by
    constructor
    · rintro (h | ⟨-, h⟩)
      · left; simpa [len] using h
      · right; exact h
    · rintro (h | h)
      · left; simp [len, h]
      · right; exact ⟨by simp [len, h, nullLiteral], h⟩
  by_cases hc : elems raw = [] ∨ elems raw = nullLiteral
  · refine ⟨Object.nil, ?_, by simp [hc], fun h => absurd hc h⟩
    simp only [rawExtensionToObject]
    rw [if_pos (hcond.mpr hc)]
  · refine ⟨Object.unknownPtr (some ⟨TypeMeta.zero, raw⟩), ?_, ?_, fun _ => rfl⟩
    · simp only [rawExtensionToObject]
      rw [if_neg (fun h => hc (hcond.mp h))]
    · simp [hc]

/-- Witness of C17 on the raw bytes `{"x":5}`. -/
theorem rawExtensionToObject_raw_case_witness :
    (Object.unknownPtr (some ⟨TypeMeta.zero, some [123, 34, 120, 34, 58, 53, 125]⟩)
        : Object Unit Unit) ≠ Object.nil ∧
      rawExtensionToObject
          (some (⟨some [123, 34, 120, 34, 58, 53, 125], Object.nil⟩ : RawExtension Unit Unit))
          (some Object.nil) ()
        = some (Object.unknownPtr (some ⟨TypeMeta.zero, some [123, 34, 120, 34, 58, 53, 125]⟩),
            none) := by
  obtain ⟨obj, hrun, -, hobj⟩ :=
    rawExtensionToObject_raw_case (some [123, 34, 120, 34, 58, 53, 125])
      (Object.nil : Object Unit Unit) ()
  have hne : ¬ (elems (some [123, 34, 120, 34, 58, 53, 125]) = [] ∨
      elems (some [123, 34, 120, 34, 58, 53, 125]) = nullLiteral) := by
    simp [elems, nullLiteral]
  rw [hobj hne] at hrun
  exact ⟨fun h => Object.noConfusion h, hrun⟩

/-! ## Lazy evaluation -/

theorem marshalRepeatedly_recording
    (result : ε → Object ε κ → List GroupVersion → ByteSlice × Option GoError)
    (re : encodable ε (Object ε κ)) :
    ∀ (n : Nat) (log : List (Invocation ε κ)),
      marshalRepeatedly (recordingEncoder result) re n log
        = (List.replicate n (result re.e re.obj []),
            log ++ List.replicate n (re.e, re.obj, [])) := by
  intro n
  induction n with
  | zero => intro log; simp [marshalRepeatedly]
  | succ n ih =>
    intro log
    simp only [marshalRepeatedly, encodable.MarshalJSON, Encode, recordingEncoder]
    rw [ih]
    simp [List.replicate_succ]

/-- C18: wrapping invokes the encoder zero times, the world state not being
touched by `NewEncodable` or `NewEncodableList`; `n` successive `MarshalJSON`
calls on the wrapper of a non-`*Unknown` object, obtained from either, add
exactly `n` invocations to the record, each of them on the held object. -/
theorem lazy_encoding_invocations
    (result : ε → Object ε κ → List GroupVersion → ByteSlice × Option GoError)
    (e : ε) (vs : List GroupVersion) (n : Nat) (log : List (Invocation ε κ)) :
    (∀ obj : Object ε κ, isUnknown obj = false →
        ∃ re, NewEncodable e obj vs = Object.encodableVal re ∧
          (marshalRepeatedly (recordingEncoder result) re 0 log).2 = log ∧
          (marshalRepeatedly (recordingEncoder result) re n log).2
            = log ++ List.replicate n (e, obj, []) ∧
          invocationCount (marshalRepeatedly (recordingEncoder result) re n log).2
            = invocationCount log + n) ∧
      (∀ (objects : List (Object ε κ)) (i : Nat) (obj : Object ε κ),
        objects[i]? = some obj → isUnknown obj = false →
        ∃ re, (NewEncodableList e objects vs)[i]? = some (Object.encodableVal re) ∧
          (marshalRepeatedly (recordingEncoder result) re 0 log).2 = log ∧
          (marshalRepeatedly (recordingEncoder result) re n log).2
            = log ++ List.replicate n (e, obj, []) ∧
          invocationCount (marshalRepeatedly (recordingEncoder result) re n log).2
            = invocationCount log + n) := by
  have key : ∀ obj : Object ε κ,
      (marshalRepeatedly (recordingEncoder result) ⟨e, obj, vs⟩ 0 log).2 = log ∧
      (marshalRepeatedly (recordingEncoder result) ⟨e, obj, vs⟩ n log).2
        = log ++ List.replicate n (e, obj, []) ∧
      invocationCount (marshalRepeatedly (recordingEncoder result) ⟨e, obj, vs⟩ n log).2
        = invocationCount log + n := by
    intro obj
    refine ⟨rfl, ?_, ?_⟩
    · rw [marshalRepeatedly_recording]
    · rw [marshalRepeatedly_recording]
      simp [invocationCount]
  constructor
  · intro obj hobj
    exact ⟨⟨e, obj, vs⟩, by simp [NewEncodable, hobj], key obj⟩
  · intro objects i obj hget hobj
    refine ⟨⟨e, obj, vs⟩, ?_, key obj⟩
    obtain ⟨hi, hval⟩ := List.getElem?_eq_some_iff.mp hget
    rw [NewEncodableList,
      loop_getElem e objects vs objects.length 0 _ (by simp) (by simp) i hi]
    simp [hval, NewEncodable, hobj]

/-- Witness of C18: three calls on the wrapper of a typed object, starting from
an empty record. -/
theorem lazy_encoding_invocations_witness :
    ∃ re : encodable Unit (Object Unit Nat),
      NewEncodable () (Object.concrete 7) [⟨"apps", "v1"⟩] = Object.encodableVal re ∧
      (marshalRepeatedly (recordingEncoder (fun _ _ _ => (some [49], none))) re 0 []).2 = [] ∧
      (marshalRepeatedly (recordingEncoder (fun _ _ _ => (some [49], none))) re 3 []).2
        = [] ++ List.replicate 3 ((), Object.concrete 7, []) ∧
      invocationCount
          (marshalRepeatedly (recordingEncoder (fun _ _ _ => (some [49], none))) re 3 []).2
        = invocationCount ([] : List (Invocation Unit Nat)) + 3 :=
  (lazy_encoding_invocations (fun _ _ _ => (some [49], none)) () [⟨"apps", "v1"⟩] 3 []).1
    (Object.concrete 7) rfl

/-! ## Errors of the bridge -/

/-- C19: whenever one of the two conversion functions returns, the error it
returns is nil; `Unknown.MarshalJSON` returns a nil error for every value. -/
theorem bridge_returns_no_error {γ : Type} :
    (∀ (src : Option (Object ε κ)) (out : Option (RawExtension ε κ)) (s : γ)
        (r : RawExtension ε κ × Option GoError),
        objectToRawExtension src out s = some r → r.2 = none) ∧
      (∀ (src : Option (RawExtension ε κ)) (out : Option (Object ε κ)) (s : γ)
        (r : Object ε κ × Option GoError),
        rawExtensionToObject src out s = some r → r.2 = none) ∧
      (∀ u : Unknown, (Unknown.MarshalJSON u).2 = none) := by
  refine ⟨?_, ?_, ?_⟩
  · intro src out s r h
    have hstore : ∀ (d : RawExtension ε κ) (o : Object ε κ), (storeObject d o).2 = none := by
      intro d o
      cases o <;> rfl
    cases out with
    | none => simp [objectToRawExtension] at h
    | some dst =>
      cases src with
      | none =>
        simp only [objectToRawExtension, Option.some.injEq] at h
        rw [← h]
      | some obj =>
        cases obj with
        | nil =>
          simp only [objectToRawExtension, Option.some.injEq] at h
          rw [← h]; exact hstore _ _
        | unknownPtr p =>
          cases p with
          | none => simp [objectToRawExtension] at h
          | some unk =>
            cases hraw : unk.RawJSON with
            | none =>
              simp only [objectToRawExtension, hraw, Option.some.injEq] at h
              rw [← h]; exact hstore _ _
            | some bs =>
              simp only [objectToRawExtension, hraw, Option.some.injEq] at h
              rw [← h]
        | encodableVal w =>
          simp only [objectToRawExtension, Option.some.injEq] at h
          rw [← h]; exact hstore _ _
        | concrete x =>
          simp only [objectToRawExtension, Option.some.injEq] at h
          rw [← h]; exact hstore _ _
  · intro src out s r h
    cases src with
    | none => simp [rawExtensionToObject] at h
    | some rx =>
      cases out with
      | none => simp [rawExtensionToObject] at h
      | some o =>
        simp only [rawExtensionToObject] at h
        split at h
        · split at h
          · simp only [Option.some.injEq] at h
            rw [← h]
          · simp only [Option.some.injEq] at h
            rw [← h]
        · simp only [Option.some.injEq] at h
          rw [← h]
  · intro u
    simp only [Unknown.MarshalJSON]
    split <;> rfl

/-- Witness of C19: a returning call of each conversion function. -/
theorem bridge_returns_no_error_witness :
    (objectToRawExtension
          (some (Object.unknownPtr (some ⟨TypeMeta.zero, some [123, 125]⟩) : Object Unit Unit))
          (some ⟨none, Object.nil⟩) ()
        = some ((⟨some [123, 125], Object.nil⟩, none)) ∧
      ((⟨some [123, 125], Object.nil⟩, none) : RawExtension Unit Unit × Option GoError).2
        = none) ∧
    (rawExtensionToObject (some (⟨none, Object.concrete ()⟩ : RawExtension Unit Unit))
          (some Object.nil) ()
        = some ((Object.concrete (), none)) ∧
      ((Object.concrete (), none) : Object Unit Unit × Option GoError).2 = none) :=
  ⟨⟨rfl, bridge_returns_no_error.1
      (some (Object.unknownPtr (some ⟨TypeMeta.zero, some [123, 125]⟩)))
      (some ⟨none, Object.nil⟩) () (⟨some [123, 125], Object.nil⟩, none) rfl⟩,
    ⟨rfl, bridge_returns_no_error.2.1 (some ⟨none, Object.concrete ()⟩) (some Object.nil) ()
      (Object.concrete (), none) rfl⟩⟩

/-! ## The reverse round trip -/

/-- C20: starting from a zero destination, `Object -> RawExtension` followed by
`RawExtension -> Object` returns a non-nil object that is not a `*Unknown`
unchanged, returns for a `*Unknown` with non-empty raw bytes other than the
literal null a `*Unknown` with the same raw bytes and zero type information,
and returns nil for a `*Unknown` whose raw bytes are nil. -/
theorem bridge_reverse_roundtrip {γ : Type} (prior : Object ε κ) (s : γ) :
    (∀ obj : Object ε κ, obj ≠ Object.nil → isUnknown obj = false →
        ∃ mid, objectToRawExtension (some obj) (some ⟨none, Object.nil⟩) s = some (mid, none) ∧
          rawExtensionToObject (some mid) (some prior) s = some (obj, none)) ∧
      (∀ (tm : TypeMeta) (bs : List Byte), bs ≠ [] → bs ≠ nullLiteral →
        ∃ mid, objectToRawExtension (some (Object.unknownPtr (some ⟨tm, some bs⟩)))
            (some ⟨none, Object.nil⟩) s = some (mid, none) ∧
          rawExtensionToObject (some mid) (some prior) s
            = some (Object.unknownPtr (some ⟨TypeMeta.zero, some bs⟩), none)) ∧
      (∀ tm : TypeMeta,
        ∃ mid, objectToRawExtension (some (Object.unknownPtr (some ⟨tm, none⟩)))
            (some ⟨none, Object.nil⟩) s = some (mid, none) ∧
          rawExtensionToObject (some mid) (some prior) s = some (Object.nil, none)) := by
  refine ⟨?_, ?_, ?_⟩
  · intro obj hnil hunk
    cases obj with
    | nil => exact absurd rfl hnil
    | unknownPtr p => simp [isUnknown] at hunk
    | encodableVal w => exact ⟨⟨none, Object.encodableVal w⟩, rfl, rfl⟩
    | concrete x => exact ⟨⟨none, Object.concrete x⟩, rfl, rfl⟩
  · intro tm bs hne hnull
    refine ⟨⟨some bs, Object.nil⟩, rfl, ?_⟩
    have hc : ¬ (len (some bs) = 0 ∨ (len (some bs) = 4 ∧ elems (some bs) = nullLiteral)) := by
      rintro (h | ⟨-, h⟩)
      · exact hne (by simpa [len, elems] using h)
      · exact hnull (by simpa [elems] using h)
    simp only [rawExtensionToObject]
    rw [if_neg hc]
  · intro tm
    exact ⟨⟨none, Object.nil⟩, rfl, rfl⟩

/-- Witness of C20 on a typed object and on a `*Unknown` that carries type
information. -/
theorem bridge_reverse_roundtrip_witness :
    (∃ mid : RawExtension Unit Nat,
        objectToRawExtension (some (Object.concrete 7)) (some ⟨none, Object.nil⟩) ()
          = some (mid, none) ∧
        rawExtensionToObject (some mid) (some Object.nil) ()
          = some (Object.concrete 7, none)) ∧
      (∃ mid : RawExtension Unit Nat,
        objectToRawExtension (some (Object.unknownPtr (some ⟨⟨"v1", "Pod"⟩, some [123, 125]⟩)))
          (some ⟨none, Object.nil⟩) () = some (mid, none) ∧
        rawExtensionToObject (some mid) (some Object.nil) ()
          = some (Object.unknownPtr (some ⟨TypeMeta.zero, some [123, 125]⟩), none)) :=
  ⟨(bridge_reverse_roundtrip (Object.nil : Object Unit Nat) ()).1 (Object.concrete 7)
      (fun h => Object.noConfusion h) rfl,
    (bridge_reverse_roundtrip (Object.nil : Object Unit Nat) ()).2.1 ⟨"v1", "Pod"⟩ [123, 125]
      (by decide) (by decide)⟩

end Runtime
